import Mathlib

/-!
Verification development for `ptysd` (src/ptysd.c), a single-session pty
relay server.  The C program is shallowly embedded: straight-line fd
arithmetic becomes pure functions, the relay copy loops become recursive
functions driven by an explicit oracle of OS read/write results, and the
supervisor accept loop becomes a recursive function over a list of
per-iteration inputs.
-/

namespace Ptysd

/-! ### Descriptor and thread-handle selection in `ps_relay` / `ps_relay_one`

`ps_relay(peerfd, mfd)` stores `ps_relay_fds[0] = peerfd` and
`ps_relay_fds[1] = mfd`, then starts `ps_relay_one` with `arg = 0` and
`arg = 1`.  `ps_relay_one` computes

    sourcefd = ps_relay_fds[(int) arg];
    destfd   = ps_relay_fds[(sourcefd + 1) % 2];
    other    = ps_relay_threads[(sourcefd + 1) % 2];

Note the index of `destfd` and `other` is computed from the descriptor
VALUE `sourcefd`, not from the worker index `arg`.  File descriptors are
nonnegative, so C's `%` agrees with `Nat.mod` here. -/

/-- `ps_relay_fds` after `ps_relay(peerfd, mfd)` wrote its two slots. -/
def ps_relay_fds (peerfd mfd : Nat) : Nat → Nat
  | 0 => peerfd
  | _ => mfd

/-- `sourcefd` computed by the worker started with index `arg`. -/
def ps_sourcefd (peerfd mfd arg : Nat) : Nat :=
  ps_relay_fds peerfd mfd arg

/-- Index used by `ps_relay_one` for both `destfd` and `other`:
`(sourcefd + 1) % 2`. -/
def ps_otherIdx (peerfd mfd arg : Nat) : Nat :=
  (ps_sourcefd peerfd mfd arg + 1) % 2

/-- `destfd` computed by the worker started with index `arg`. -/
def ps_destfd (peerfd mfd arg : Nat) : Nat :=
  ps_relay_fds peerfd mfd (ps_otherIdx peerfd mfd arg)

/-! ### The inner write loop of `ps_relay_one`

    towrite = nread;
    while (towrite > 0) {
        nwritten = write(destfd, buf + (nread - towrite), towrite);
        if (nwritten < 0) { perror("child: write"); break; }
        towrite -= nwritten;
    }

A write result is either an error (`write` returned a negative value) or
a count of bytes accepted.  `towrite` is a C `int`, modelled as `Int` so
that the question whether it can go negative is faithful.  The chunk read
into `buf` is a byte list; the slice `buf + (nread - towrite)` of length
`towrite` is the suffix `chunk.drop (nread - towrite)`. -/

/-- Result of one `write(2)` call: error, or `n ≥ 0` bytes accepted. -/
inductive WRes : Type
  | err : WRes
  | ok : Nat → WRes
deriving DecidableEq

/-- How the inner write loop ended. -/
inductive FStat : Type
  /-- loop condition `towrite > 0` became false -/
  | flushed : FStat
  /-- `break` on `nwritten < 0` -/
  | aborted : FStat
  /-- the oracle ran out while `towrite > 0`: the loop is still running -/
  | pending : FStat
deriving DecidableEq

/-- Observable outcome of the inner write loop: the `(offset, count)`
arguments of each `write` call made, the bytes each successful call
transferred, the final value of `towrite`, and how the loop ended. -/
structure FlushOut : Type where
  calls : List (Int × Int)
  pieces : List (List Nat)
  rem : Int
  stat : FStat
deriving DecidableEq

/-- The inner write loop of `ps_relay_one`, with `chunk` the `nread` bytes
in `buf`, `t` the current `towrite`, and the oracle list giving each
`write` call's result in order. -/
def ps_write_loop (chunk : List Nat) : Int → List WRes → FlushOut
  | t, [] =>
    if t ≤ 0 then ⟨[], [], t, .flushed⟩ else ⟨[], [], t, .pending⟩
  | t, w :: ws =>
    if t ≤ 0 then ⟨[], [], t, .flushed⟩
    else
      match w with
      | .err => ⟨[((chunk.length : Int) - t, t)], [], t, .aborted⟩
      | .ok n =>
        let r := ps_write_loop chunk (t - n) ws
        ⟨((chunk.length : Int) - t, t) :: r.calls,
         ((chunk.drop ((chunk.length : Int) - t).toNat).take n) :: r.pieces,
         r.rem, r.stat⟩

/-- POSIX environment assumption on the write oracle: a successful
`write` never reports more bytes than it was asked to write.  Stated
relative to the running `towrite`. -/
def validW : Int → List WRes → Bool
  | _, [] => true
  | _, .err :: _ => true
  | t, .ok n :: ws => decide ((n : Int) ≤ t) && validW (t - n) ws

theorem ps_write_loop_nil (chunk : List Nat) (t : Int) :
    ps_write_loop chunk t [] =
      if t ≤ 0 then ⟨[], [], t, .flushed⟩ else ⟨[], [], t, .pending⟩ := rfl

theorem ps_write_loop_cons (chunk : List Nat) (t : Int) (w : WRes)
    (ws : List WRes) :
    ps_write_loop chunk t (w :: ws) =
      if t ≤ 0 then ⟨[], [], t, .flushed⟩
      else
        match w with
        | .err => ⟨[((chunk.length : Int) - t, t)], [], t, .aborted⟩
        | .ok n =>
          let r := ps_write_loop chunk (t - n) ws
          ⟨((chunk.length : Int) - t, t) :: r.calls,
           ((chunk.drop ((chunk.length : Int) - t).toNat).take n) :: r.pieces,
           r.rem, r.stat⟩ := rfl

/-- If the inner loop exits with `towrite ≤ 0` (the `flushed` status),
the bytes transferred are exactly the pending suffix of the chunk. -/
theorem ps_write_loop_join (ws : List WRes) : ∀ (chunk : List Nat) (t : Int),
    validW t ws = true → 0 ≤ t → t ≤ (chunk.length : Int) →
    (ps_write_loop chunk t ws).stat = .flushed →
    (ps_write_loop chunk t ws).pieces.flatten =
      chunk.drop ((chunk.length : Int) - t).toNat := by
  induction ws with
  | nil =>
    intro chunk t _ ht0 htl hstat
    rw [ps_write_loop_nil] at hstat ⊢
    by_cases h : t ≤ 0
    · have ht : t = 0 := le_antisymm h ht0
      subst ht
      simp [List.drop_length]
    · simp [h] at hstat
  | cons w ws ih =>
    intro chunk t hv ht0 htl hstat
    rw [ps_write_loop_cons] at hstat ⊢
    by_cases h : t ≤ 0
    · have ht : t = 0 := le_antisymm h ht0
      subst ht
      simp [List.drop_length]
    · simp only [if_neg h] at hstat ⊢
      cases w with
      | err => simp at hstat
      | ok n =>
        simp only [validW, Bool.and_eq_true, decide_eq_true_eq] at hv
        simp only at hstat ⊢
        rw [List.flatten_cons]
        have hrec := ih chunk (t - n) hv.2 (by omega) (by omega) hstat
        rw [hrec]
        have harith : ((chunk.length : Int) - (t - n)).toNat =
            ((chunk.length : Int) - t).toNat + n := by omega
        rw [harith, ← List.drop_drop]
        exact List.take_append_drop n (chunk.drop ((chunk.length : Int) - t).toNat)

/-- Every `write` call of the inner loop is passed exactly the pending
suffix of the chunk: offset `nread - towrite` and count `towrite`, with
`offset + count = nread` and `0 < count ≤ nread`. -/
theorem ps_write_loop_calls (ws : List WRes) : ∀ (chunk : List Nat) (t : Int),
    validW t ws = true → 0 ≤ t → t ≤ (chunk.length : Int) →
    ∀ c ∈ (ps_write_loop chunk t ws).calls,
      c.1 + c.2 = (chunk.length : Int) ∧ 0 ≤ c.1 ∧ 0 < c.2 ∧
      c.2 ≤ (chunk.length : Int) := by
  induction ws with
  | nil =>
    intro chunk t _ ht0 htl c hc
    rw [ps_write_loop_nil] at hc
    by_cases h : t ≤ 0 <;> simp [h] at hc
  | cons w ws ih =>
    intro chunk t hv ht0 htl c hc
    rw [ps_write_loop_cons] at hc
    by_cases h : t ≤ 0
    · simp [h] at hc
    · simp only [if_neg h] at hc
      cases w with
      | err =>
        simp only [List.mem_singleton] at hc
        subst hc
        refine ⟨by ring, by omega, by omega, by omega⟩
      | ok n =>
        simp only [validW, Bool.and_eq_true, decide_eq_true_eq] at hv
        simp only [List.mem_cons] at hc
        rcases hc with hc | hc
        · subst hc
          refine ⟨by ring, by omega, by omega, by omega⟩
        · exact ih chunk (t - n) hv.2 (by omega) (by omega) c hc

/-- Final `towrite` facts: it never goes negative (given the POSIX bound
on write results), it is exactly `0` when the loop exits by its
condition, and it is strictly positive when the loop exits by a write
error.  The first two discharge the C `assert(towrite == 0)`. -/
theorem ps_write_loop_rem (ws : List WRes) : ∀ (chunk : List Nat) (t : Int),
    validW t ws = true → 0 ≤ t →
    0 ≤ (ps_write_loop chunk t ws).rem ∧
    ((ps_write_loop chunk t ws).stat = .flushed →
      (ps_write_loop chunk t ws).rem = 0) ∧
    ((ps_write_loop chunk t ws).stat = .aborted →
      0 < (ps_write_loop chunk t ws).rem) := by
  induction ws with
  | nil =>
    intro chunk t _ ht0
    rw [ps_write_loop_nil]
    by_cases h : t ≤ 0 <;> (simp [h]; omega)
  | cons w ws ih =>
    intro chunk t hv ht0
    rw [ps_write_loop_cons]
    by_cases h : t ≤ 0
    · simp [h]; omega
    · simp only [if_neg h]
      cases w with
      | err => simp; omega
      | ok n =>
        simp only [validW, Bool.and_eq_true, decide_eq_true_eq] at hv
        simpa using ih chunk (t - n) hv.2 (by omega)

/-- Progress: if every write call either errors or transfers at least one
byte, the loop can still be running (`pending`) only when the oracle was
shorter than `towrite`; i.e. the loop finishes within `towrite` write
calls. -/
theorem ps_write_loop_progress (ws : List WRes) : ∀ (chunk : List Nat) (t : Int),
    (∀ w ∈ ws, w = .err ∨ ∃ n, 1 ≤ n ∧ w = .ok n) →
    (ps_write_loop chunk t ws).stat = .pending →
    (ws.length : Int) < t := by
  induction ws with
  | nil =>
    intro chunk t _ hstat
    rw [ps_write_loop_nil] at hstat
    by_cases h : t ≤ 0 <;> simp [h] at hstat ⊢ <;> omega
  | cons w ws ih =>
    intro chunk t hprog hstat
    rw [ps_write_loop_cons] at hstat
    by_cases h : t ≤ 0
    · simp [h] at hstat
    · simp only [if_neg h] at hstat
      cases w with
      | err => simp at hstat
      | ok n =>
        simp only at hstat
        have hn : 1 ≤ n := by
          rcases hprog (.ok n) (List.mem_cons_self _ _) with hw | ⟨m, hm, hw⟩
          · exact absurd hw (by simp)
          · cases hw; exact hm
        have := ih chunk (t - n)
          (fun w hw => hprog w (List.mem_cons_of_mem _ hw)) hstat
        simp only [List.length_cons]
        push_cast
        omega

/-- No progress under zero-byte writes: however many successive `write`
calls return `0`, the loop neither finishes nor errors, `towrite` is
unchanged, and no bytes are transferred — it retries forever. -/
theorem ps_write_loop_zero (k : Nat) : ∀ (chunk : List Nat) (t : Int),
    0 < t →
    (ps_write_loop chunk t (List.replicate k (.ok 0))).stat = .pending ∧
    (ps_write_loop chunk t (List.replicate k (.ok 0))).rem = t ∧
    (ps_write_loop chunk t (List.replicate k (.ok 0))).pieces.flatten = [] := by
  induction k with
  | zero =>
    intro chunk t ht
    rw [List.replicate_zero, ps_write_loop_nil]
    have h : ¬ t ≤ 0 := by omega
    simp [h]
  | succ k ih =>
    intro chunk t ht
    rw [List.replicate_succ, ps_write_loop_cons]
    simp only [if_neg (by omega : ¬ t ≤ 0)]
    have := ih chunk (t - (0 : Nat)) (by omega)
    simp only [Nat.cast_zero, sub_zero] at this
    simpa using this

/-! ### The outer read loop of `ps_relay_one`

    while ((nread = read(sourcefd, buf, sizeof (buf))) >= 0) {
        if (nread == 0) { (void) close(destfd); break; }
        towrite = nread;
        ... inner write loop ...
        if (towrite > 0) break;
        assert(towrite == 0);
    }
    if (nread < 0) perror("child: read");
    (void) pthread_cancel(other);

Each outer iteration consumes one read result; a `chunk` event carries
the bytes `read` returned together with the oracle for the `write` calls
used to flush that chunk. -/

/-- One `read(2)` result: end-of-stream (`0`), error (`< 0`), or a chunk
of bytes together with the write-oracle used while flushing it. -/
inductive RRes : Type
  | eof : RRes
  | rerr : RRes
  | chunk : List Nat → List WRes → RRes
deriving DecidableEq

/-- How the worker's outer loop ended. -/
inductive WTerm : Type
  /-- zero-length read: destination closed, normal exit -/
  | eofClose : WTerm
  /-- `read` returned an error -/
  | readErr : WTerm
  /-- a `write` returned an error (`towrite > 0` after the inner loop) -/
  | writeErr : WTerm
  /-- read oracle exhausted: the worker is still running -/
  | fuel : WTerm
  /-- write oracle exhausted mid-chunk: the worker is still running -/
  | stuck : WTerm
deriving DecidableEq

/-- Observable outcome of one relay worker: the byte groups written to
`destfd` in order, how the loop ended, whether `close(destfd)` was
executed, and whether `pthread_cancel(other)` was executed. -/
structure WOut : Type where
  out : List (List Nat)
  term : WTerm
  closedDest : Bool
  cancelledOther : Bool
deriving DecidableEq

/-- The whole copy loop of `ps_relay_one` (after descriptor selection),
driven by a list of read results. -/
def ps_relay_loop : List RRes → WOut
  | [] => ⟨[], .fuel, false, false⟩
  | .eof :: _ => ⟨[], .eofClose, true, true⟩
  | .rerr :: _ => ⟨[], .readErr, false, true⟩
  | .chunk d ws :: rest =>
    match (ps_write_loop d (d.length : Int) ws).stat with
    | .flushed =>
      let r := ps_relay_loop rest
      ⟨(ps_write_loop d (d.length : Int) ws).pieces ++ r.out,
       r.term, r.closedDest, r.cancelledOther⟩
    | .aborted =>
      ⟨(ps_write_loop d (d.length : Int) ws).pieces, .writeErr, false, true⟩
    | .pending =>
      ⟨(ps_write_loop d (d.length : Int) ws).pieces, .stuck, false, false⟩

/-- Environment assumption on the read oracle: `read` with a 512-byte
buffer returns between 1 and 512 bytes for a data chunk, and each chunk's
write oracle satisfies the POSIX bound. -/
def validR : List RRes → Bool
  | [] => true
  | .eof :: _ => true
  | .rerr :: _ => true
  | .chunk d ws :: rest =>
    decide (1 ≤ d.length) && decide (d.length ≤ 512) &&
    validW (d.length : Int) ws && validR rest

/-- The chunks delivered by the source up to the first end-of-stream or
read error. -/
def readBytes : List RRes → List (List Nat)
  | [] => []
  | .eof :: _ => []
  | .rerr :: _ => []
  | .chunk d _ :: rest => d :: readBytes rest

/-- A worker that terminates via end-of-stream or read error has written
exactly the bytes it read, in order. -/
theorem ps_relay_loop_join : ∀ l : List RRes, validR l = true →
    ((ps_relay_loop l).term = .eofClose ∨ (ps_relay_loop l).term = .readErr) →
    (ps_relay_loop l).out.flatten = (readBytes l).flatten := by
  intro l
  induction l with
  | nil =>
    intro _ hterm
    simp [ps_relay_loop] at hterm
  | cons x rest ih =>
    intro hv hterm
    cases x with
    | eof => simp [ps_relay_loop, readBytes]
    | rerr => simp [ps_relay_loop, readBytes]
    | chunk d ws =>
      simp only [validR, Bool.and_eq_true, decide_eq_true_eq] at hv
      obtain ⟨⟨⟨h1, _⟩, hw⟩, hr⟩ := hv
      simp only [ps_relay_loop] at hterm ⊢
      rcases hstat : (ps_write_loop d (d.length : Int) ws).stat with _ | _ | _ <;>
        simp only [hstat] at hterm ⊢
      · have hjoin := ps_write_loop_join ws d (d.length : Int) hw
          (by positivity) le_rfl hstat
        simp only [readBytes, List.flatten_cons, List.flatten_append]
        rw [hjoin, ih hr hterm]
        simp
      · simp at hterm
      · simp at hterm

/-- A write error makes the worker abort: the rest of the read oracle is
never consumed (the worker performs no further reads). -/
theorem ps_relay_loop_abort (d : List Nat) (ws : List WRes)
    (rest rest' : List RRes)
    (h : (ps_write_loop d (d.length : Int) ws).stat = .aborted) :
    ps_relay_loop (.chunk d ws :: rest) = ps_relay_loop (.chunk d ws :: rest') := by
  simp only [ps_relay_loop]
  split <;> rename_i hstat <;> rw [hstat] at h <;> simp_all

/-- On every terminated path — end-of-stream, read error, or write
error — the worker executes `pthread_cancel` on the handle it selected,
and on the end-of-stream path it first closes its destination. -/
theorem ps_relay_loop_cancel : ∀ l : List RRes,
    ((ps_relay_loop l).term = .eofClose ∨ (ps_relay_loop l).term = .readErr ∨
     (ps_relay_loop l).term = .writeErr) →
    (ps_relay_loop l).cancelledOther = true ∧
    ((ps_relay_loop l).term = .eofClose → (ps_relay_loop l).closedDest = true) := by
  intro l
  induction l with
  | nil => intro hterm; simp [ps_relay_loop] at hterm
  | cons x rest ih =>
    intro hterm
    cases x with
    | eof => simp [ps_relay_loop]
    | rerr => simp [ps_relay_loop]
    | chunk d ws =>
      simp only [ps_relay_loop] at hterm ⊢
      rcases hstat : (ps_write_loop d (d.length : Int) ws).stat with _ | _ | _ <;>
        simp only [hstat] at hterm ⊢
      · exact ih hterm
      · simp
      · simp at hterm

/-! ### Claim theorems about the relay workers -/

/-- C1: refuted at a concrete input.  The claim says each worker's
destination is the descriptor that is not its source.  `ps_relay_one`
selects `destfd = ps_relay_fds[(sourcefd + 1) % 2]`, indexing by the
descriptor VALUE.  For `ps_relay(peerfd = 3, mfd = 4)` both workers
compute a destination equal to their own source: the peer-side worker
reads fd 3 and writes back to fd 3, never to the pty master. -/
theorem ps_c1_direction_bug :
    ps_destfd 3 4 0 = ps_sourcefd 3 4 0 ∧ ps_destfd 3 4 1 = ps_sourcefd 3 4 1 ∧
    ps_sourcefd 3 4 0 = 3 ∧ ps_sourcefd 3 4 1 = 4 := by decide

/-- C2: a relay worker forwards exactly the bytes it reads, in order.
(1) If the worker terminates by end-of-stream or read error, the bytes
written to its destination are exactly the concatenation of the chunks
read, with no truncation, duplication, reordering, or merging.
(2) Every `write` call is passed exactly the remaining suffix of the
current chunk (offset + count = chunk length, positive count).
(3) A write error aborts the worker: the remaining read oracle is never
consumed. -/
theorem ps_c2_relay_copy :
    (∀ l : List RRes, validR l = true →
      ((ps_relay_loop l).term = .eofClose ∨ (ps_relay_loop l).term = .readErr) →
      (ps_relay_loop l).out.flatten = (readBytes l).flatten) ∧
    (∀ (d : List Nat) (ws : List WRes) (t : Int),
      validW t ws = true → 0 ≤ t → t ≤ (d.length : Int) →
      ∀ c ∈ (ps_write_loop d t ws).calls,
        c.1 + c.2 = (d.length : Int) ∧ 0 ≤ c.1 ∧ 0 < c.2) ∧
    (∀ (d : List Nat) (ws : List WRes) (rest rest' : List RRes),
      (ps_write_loop d (d.length : Int) ws).stat = .aborted →
      ps_relay_loop (.chunk d ws :: rest) = ps_relay_loop (.chunk d ws :: rest')) :=
  ⟨ps_relay_loop_join,
   fun d ws t hv h0 hl c hc =>
     (ps_write_loop_calls ws d t hv h0 hl c hc).imp_right fun h =>
       ⟨h.1, h.2.1⟩,
   ps_relay_loop_abort⟩

theorem ps_c2_relay_copy_witness :
    (ps_relay_loop [RRes.chunk [7, 8, 9] [WRes.ok 2, WRes.ok 1], RRes.eof]).out.flatten =
      (readBytes [RRes.chunk [7, 8, 9] [WRes.ok 2, WRes.ok 1], RRes.eof]).flatten :=
  ps_c2_relay_copy.1 [RRes.chunk [7, 8, 9] [WRes.ok 2, WRes.ok 1], RRes.eof]
    (by decide) (by decide)

/-- C3: refuted at a concrete input.  The claim says each worker signals
the OPPOSING worker on termination.  The cancel target is
`ps_relay_threads[(sourcefd + 1) % 2]`, again indexed by the descriptor
value.  For `ps_relay(peerfd = 3, mfd = 4)`, the worker started with
index 0 selects slot `(3 + 1) % 2 = 0` — its own handle — and likewise
worker 1 selects slot 1, so each `pthread_cancel` targets the worker
itself, not its opposite. -/
theorem ps_c3_cancel_target_bug :
    ps_otherIdx 3 4 0 = 0 ∧ ps_otherIdx 3 4 1 = 1 := by decide

/-- C9: in every iteration of the copy loop (POSIX bound on write results
assumed, `nread ≤ 512`): the final `towrite` is nonnegative and is `0`
whenever the inner loop exits without a write error — the C
`assert(towrite == 0)` holds; and every `write` call accesses exactly
`buf[nread - towrite, nread)`: offset nonnegative, count positive, and
offset + count = nread ≤ 512, inside the 512-byte buffer. -/
theorem ps_c9_write_bounds (d : List Nat) (ws : List WRes) (t : Int)
    (hv : validW t ws = true) (h0 : 0 ≤ t) (hl : t ≤ (d.length : Int))
    (h512 : d.length ≤ 512) :
    (0 ≤ (ps_write_loop d t ws).rem ∧
      ((ps_write_loop d t ws).stat = .flushed → (ps_write_loop d t ws).rem = 0)) ∧
    ∀ c ∈ (ps_write_loop d t ws).calls,
      0 ≤ c.1 ∧ 0 < c.2 ∧ c.1 + c.2 = (d.length : Int) ∧
      c.1 + c.2 ≤ 512 := by
  refine ⟨⟨(ps_write_loop_rem ws d t hv h0).1, (ps_write_loop_rem ws d t hv h0).2.1⟩,
    fun c hc => ?_⟩
  obtain ⟨hsum, hc1, hc2, _⟩ := ps_write_loop_calls ws d t hv h0 hl c hc
  exact ⟨hc1, hc2, hsum, by omega⟩

theorem ps_c9_write_bounds_witness :
    (0 ≤ (ps_write_loop [5, 6] 2 [WRes.ok 1, WRes.ok 1]).rem ∧
      (ps_write_loop [5, 6] 2 [WRes.ok 1, WRes.ok 1]).rem = 0) ∧
    (0 ≤ ((0 : Int), (2 : Int)).1 ∧ 0 < ((0 : Int), (2 : Int)).2 ∧
      ((0 : Int), (2 : Int)).1 + ((0 : Int), (2 : Int)).2 =
        ((([5, 6] : List Nat).length : Nat) : Int) ∧
      ((0 : Int), (2 : Int)).1 + ((0 : Int), (2 : Int)).2 ≤ 512) := by
  have h := ps_c9_write_bounds [5, 6] [WRes.ok 1, WRes.ok 1] 2
    (by decide) (by decide) (by decide) (by decide)
  exact ⟨⟨h.1.1, h.1.2 (by decide)⟩, h.2 ((0 : Int), (2 : Int)) (by decide)⟩

/-- C10: the inner write-retry loop terminates only because a write call
either errors or makes progress.  (1) If every write result is an error
or transfers at least one byte, the loop is still unfinished only when
the oracle was shorter than `towrite`: it finishes within `towrite`
calls.  (2) If write keeps returning `0` without an error, the loop
retries forever with `towrite` unchanged and nothing transferred, for
any number of calls. -/
theorem ps_c10_termination :
    (∀ (d : List Nat) (ws : List WRes) (t : Int),
      (∀ w ∈ ws, w = WRes.err ∨ ∃ n, 1 ≤ n ∧ w = WRes.ok n) →
      (ps_write_loop d t ws).stat = .pending → (ws.length : Int) < t) ∧
    (∀ (d : List Nat) (t : Int) (k : Nat), 0 < t →
      (ps_write_loop d t (List.replicate k (WRes.ok 0))).stat = .pending ∧
      (ps_write_loop d t (List.replicate k (WRes.ok 0))).rem = t ∧
      (ps_write_loop d t (List.replicate k (WRes.ok 0))).pieces.flatten = []) :=
  ⟨fun d ws t hprog => ps_write_loop_progress ws d t hprog,
   fun d t k ht => ps_write_loop_zero k d t ht⟩

theorem ps_c10_termination_witness :
    ((([WRes.ok 1] : List WRes).length : Int) < 5) ∧
    ((ps_write_loop [3] 2 (List.replicate 3 (WRes.ok 0))).stat = FStat.pending ∧
      (ps_write_loop [3] 2 (List.replicate 3 (WRes.ok 0))).rem = 2 ∧
      (ps_write_loop [3] 2 (List.replicate 3 (WRes.ok 0))).pieces.flatten = []) :=
  ⟨ps_c10_termination.1 [3] [WRes.ok 1] 5
      (fun w hw => by
        simp only [List.mem_singleton] at hw
        subst hw
        exact Or.inr ⟨1, le_refl 1, rfl⟩)
      (by decide),
   ps_c10_termination.2 [3] 2 3 (by decide)⟩

/-! ### The Supervisor accept loop `ps_server_run`

    while ((peerfd = accept(ps_sockfd, &peer, &plen)) >= 0) {
        if ((pid = fork()) < 0) { perror("fork"); break; }
        if (pid != 0) {
            (void) close(peerfd);
            (void) printf(...);
            newpid = wait(&status);
            assert(newpid == pid);
            (void) printf(...);
            continue;
        }
        (void) close(ps_sockfd);
        exit(ps_server_connected(peerfd));
    }

One loop iteration consumes one input: either the `accept` call failed,
or it produced a connection and the subsequent `fork` either failed or
produced a session child that eventually exits with some status. -/

/-- Input to one iteration of the accept loop. -/
inductive LoopIn : Type
  | acceptFail : LoopIn
  | acceptOk : Bool → Int → LoopIn
deriving DecidableEq

/-- Why the accept loop stopped (or that the inputs ran out with the
loop still going). -/
inductive StopReason : Type
  | acceptError : StopReason
  | forkError : StopReason
  | stillRunning : StopReason
deriving DecidableEq

/-- Supervisor events, in program order: `accept` returning a
connection, the `fork` call, and the `wait` that reaps the session
child. -/
inductive TEv : Type
  | accept : TEv
  | forkEv : TEv
  | waitReap : TEv
deriving DecidableEq

/-- Observable outcome of the accept loop: number of sessions accepted,
forked and reaped to completion, why the loop stopped, and the event
trace. -/
structure SrvOut : Type where
  sessions : Nat
  stop : StopReason
  trace : List TEv
deriving DecidableEq

/-- The accept loop of `ps_server_run`.  A fork failure executes `break`,
leaving the loop exactly like an accept failure does; a successful fork
reaps the child (`wait`) before the next `accept`. -/
def ps_server_run : List LoopIn → SrvOut
  | [] => ⟨0, .stillRunning, []⟩
  | .acceptFail :: _ => ⟨0, .acceptError, [.accept]⟩
  | .acceptOk false _ :: _ => ⟨0, .forkError, [.accept, .forkEv]⟩
  | .acceptOk true _ :: rest =>
    let r := ps_server_run rest
    ⟨r.sessions + 1, r.stop, .accept :: .forkEv :: .waitReap :: r.trace⟩

/-- Which step of the session child `ps_server_connected` fails first
(if any).  `posix_openpt`, `grantpt`, `unlockpt`, the inner `fork`, and
`ps_relay` each return -1 from `ps_server_connected` on failure; on
success it waits for the shell child and returns 0. -/
inductive ConnStep : Type
  | openptFail : ConnStep
  | grantptFail : ConnStep
  | unlockptFail : ConnStep
  | innerForkFail : ConnStep
  | relayFail : ConnStep
  | sessionOk : ConnStep
deriving DecidableEq

/-- Return value of `ps_server_connected`, which becomes the session
child's exit status via `exit(ps_server_connected(peerfd))`. -/
def ps_server_connected : ConnStep → Int
  | .sessionOk => 0
  | _ => -1

/-- C4: refuted at a concrete input.  The claim says only an accept
failure terminates the server.  But `ps_server_run` executes `break` when
its own `fork` fails: with a fork failure on the first connection the
loop stops with reason `forkError` — a process-spawning failure, not an
accept failure — and the second, perfectly good connection is never
served. -/
theorem ps_c4_fork_fatal_cex :
    (ps_server_run [LoopIn.acceptOk false 0, LoopIn.acceptOk true 0]).sessions = 0 ∧
    (ps_server_run [LoopIn.acceptOk false 0, LoopIn.acceptOk true 0]).stop =
      StopReason.forkError ∧
    StopReason.forkError ≠ StopReason.acceptError := by decide

/-- C4 amended: failures inside the session child — pty allocation, line
discipline, the inner fork, relay I/O — end only that session: the child
exits with a failure status and the Supervisor reaps it and keeps
accepting, whatever the status was.  But a failure of the Supervisor's
own per-connection `fork`, like an accept failure, terminates the accept
loop.  (1) The loop is still running after its inputs exactly when every
iteration had a good accept and a good fork; (2) then every connection
became a completed, reaped session; (3) a session whose child ran
`ps_server_connected` to any outcome, including every failing one, never
changes whether or why the loop stops and adds one completed session;
(4) every session-scoped failure makes `ps_server_connected` return -1
rather than touching the Supervisor. -/
theorem ps_c4_containment :
    (∀ l : List LoopIn, (ps_server_run l).stop = .stillRunning ↔
      ∀ x ∈ l, ∃ s, x = LoopIn.acceptOk true s) ∧
    (∀ l : List LoopIn, (∀ x ∈ l, ∃ s, x = LoopIn.acceptOk true s) →
      (ps_server_run l).sessions = l.length) ∧
    (∀ (step : ConnStep) (rest : List LoopIn),
      (ps_server_run (LoopIn.acceptOk true (ps_server_connected step) :: rest)).stop =
        (ps_server_run rest).stop ∧
      (ps_server_run (LoopIn.acceptOk true (ps_server_connected step) :: rest)).sessions =
        (ps_server_run rest).sessions + 1) ∧
    (∀ step : ConnStep, step ≠ ConnStep.sessionOk → ps_server_connected step = -1) := by
  refine ⟨?_, ?_, ?_, ?_⟩
  · intro l
    induction l with
    | nil => simp [ps_server_run]
    | cons x rest ih =>
      cases x with
      | acceptFail => simp [ps_server_run]
      | acceptOk ok s =>
        cases ok with
        | false => simp [ps_server_run]
        | true =>
          simp only [ps_server_run, List.mem_cons]
          constructor
          · intro h y hy
            rcases hy with hy | hy
            · exact ⟨s, hy⟩
            · exact (ih.mp h) y hy
          · intro h
            exact ih.mpr fun y hy => h y (Or.inr hy)
  · intro l
    induction l with
    | nil => simp [ps_server_run]
    | cons x rest ih =>
      intro h
      obtain ⟨s, hs⟩ := h x (List.mem_cons_self _ _)
      subst hs
      simp only [ps_server_run, List.length_cons]
      rw [ih fun y hy => h y (List.mem_cons_of_mem _ hy)]
  · intro step rest
    exact ⟨rfl, rfl⟩
  · intro step h
    cases step <;> first | rfl | exact absurd rfl h

theorem ps_c4_containment_witness :
    (ps_server_run [LoopIn.acceptOk true 0]).sessions =
      ([LoopIn.acceptOk true 0] : List LoopIn).length ∧
    ps_server_connected ConnStep.grantptFail = -1 :=
  ⟨ps_c4_containment.2.1 [LoopIn.acceptOk true 0]
      (fun x hx => ⟨0, by simpa using hx⟩),
   ps_c4_containment.2.2.2 ConnStep.grantptFail (by decide)⟩

/-- Scan of a supervisor trace: `pending` records whether an accepted
session's child is still unreaped; a further `accept` while `pending`
violates serialization. -/
def serialOk : Bool → List TEv → Bool
  | _, [] => true
  | pending, TEv.accept :: rest => if pending then false else serialOk true rest
  | _, TEv.waitReap :: rest => serialOk false rest
  | pending, TEv.forkEv :: rest => serialOk pending rest

/-- C5: serialization.  In every execution of the accept loop, no
`accept` occurs while a previously started session's child is unreaped:
the scan of the supervisor's event trace, which fails the moment an
accept happens with a pending child, always succeeds — between an accept
and the next accept there is always the `wait` collecting that session
child's status, so at most one session is active at any time. -/
theorem ps_c5_serialization (l : List LoopIn) :
    serialOk false (ps_server_run l).trace = true := by
  induction l with
  | nil => rfl
  | cons x rest ih =>
    cases x with
    | acceptFail => rfl
    | acceptOk ok s =>
      cases ok with
      | false => rfl
      | true => simpa [ps_server_run, serialOk] using ih

/-! ### Slave pty line-discipline setup in `ps_init_slavepty`

    if ((setup = ioctl(sfd, I_FIND, "ldterm")) < 0) ...
    if (setup == 0) {
        ioctl(sfd, I_PUSH, "ptem");
        ioctl(sfd, I_PUSH, "ldterm");
        ioctl(sfd, I_PUSH, "ttcompat");
    }

The slave's STREAMS module stack is a list with the most recently pushed
module at the head; `I_FIND` reports whether a module is on the stack and
`I_PUSH` pushes one on top. -/

/-- The `I_PUSH` sequence `ps_init_slavepty` issues on a stack: none when
`I_FIND "ldterm"` already succeeds, else the fixed order
ptem, ldterm, ttcompat. -/
def ps_pushSeq (stack : List String) : List String :=
  if stack.contains "ldterm" then [] else ["ptem", "ldterm", "ttcompat"]

/-- The module stack after `ps_init_slavepty`'s line-discipline setup. -/
def ps_init_slavepty_mods (stack : List String) : List String :=
  (ps_pushSeq stack).foldl (fun st m => m :: st) stack

/-- C6: preparing the slave line discipline is idempotent.  (1) Running
the setup twice on the same stack yields the same stack as running it
once (the second run's `I_FIND "ldterm"` succeeds, so nothing is pushed
again).  (2) When the line discipline is absent the pushes are exactly
ptem, ldterm, ttcompat in that fixed order; (3) when it is already
present nothing is pushed and the stack is unchanged. -/
theorem ps_contains_push (stack : List String) :
    ("ttcompat" :: "ldterm" :: "ptem" :: stack).contains "ldterm" = true := by
  simp [List.contains_cons]

theorem ps_c6_idempotent :
    (∀ stack : List String,
      ps_init_slavepty_mods (ps_init_slavepty_mods stack) =
        ps_init_slavepty_mods stack) ∧
    (∀ stack : List String, stack.contains "ldterm" = false →
      ps_pushSeq stack = ["ptem", "ldterm", "ttcompat"]) ∧
    (∀ stack : List String, stack.contains "ldterm" = true →
      ps_pushSeq stack = [] ∧ ps_init_slavepty_mods stack = stack) := by
  have habsent : ∀ stack : List String, stack.contains "ldterm" = false →
      ps_pushSeq stack = ["ptem", "ldterm", "ttcompat"] := by
    intro stack h
    unfold ps_pushSeq
    rw [h]
    rfl
  have hpresent : ∀ stack : List String, stack.contains "ldterm" = true →
      ps_pushSeq stack = [] := by
    intro stack h
    unfold ps_pushSeq
    rw [h]
    rfl
  have hmods : ∀ stack : List String,
      ps_init_slavepty_mods stack = (ps_pushSeq stack).foldl (fun st m => m :: st) stack :=
    fun _ => rfl
  refine ⟨?_, habsent, ?_⟩
  · intro stack
    rcases Bool.eq_false_or_eq_true (stack.contains "ldterm") with h | h
    · have h1 : ps_init_slavepty_mods stack = stack := by
        rw [hmods, hpresent stack h]
        rfl
      rw [h1]
      exact h1
    · have h1 : ps_init_slavepty_mods stack =
          "ttcompat" :: "ldterm" :: "ptem" :: stack := by
        rw [hmods, habsent stack h]
        rfl
      rw [h1, hmods, hpresent _ (ps_contains_push stack)]
      rfl
  · intro stack h
    exact ⟨hpresent stack h, by rw [hmods stack, hpresent stack h]; rfl⟩

theorem ps_c6_idempotent_witness :
    ps_init_slavepty_mods (ps_init_slavepty_mods []) = ps_init_slavepty_mods [] ∧
    ps_pushSeq [] = ["ptem", "ldterm", "ttcompat"] ∧
    ps_pushSeq ["ldterm", "ptem"] = [] :=
  ⟨ps_c6_idempotent.1 [],
   ps_c6_idempotent.2.1 [] (by decide),
   (ps_c6_idempotent.2.2 ["ldterm", "ptem"] (by decide)).1⟩

/-! ### Pty allocation failure paths in `ps_server_connected`

    if ((mfd = posix_openpt(O_RDWR | O_NOCTTY)) < 0) { perror; return (-1); }
    if (grantpt(mfd) != 0) { perror; return (-1); }
    if (unlockpt(mfd) != 0) { perror; return (-1); }

There is no `close(mfd)` on any of these paths. -/

/-- Which allocation step fails first, if any. -/
inductive AllocStep : Type
  | openptFail : AllocStep
  | grantptFail : AllocStep
  | unlockptFail : AllocStep
  | allocOk : AllocStep
deriving DecidableEq

/-- The allocation prefix of `ps_server_connected`, given the master
descriptor `m` that `posix_openpt` would return: the function result
(`some m` on success, `none` for the -1 error return) paired with the
list of descriptors this code still holds open when it returns. -/
def ps_alloc (m : Nat) : AllocStep → Option Nat × List Nat
  | .openptFail => (none, [])
  | .grantptFail => (none, [m])
  | .unlockptFail => (none, [m])
  | .allocOk => (some m, [m])

/-- C7: refuted at a concrete input.  The claim says the partially opened
master is closed before the allocation code returns on failure.  When
`grantpt` fails on master descriptor 5, `ps_server_connected` returns the
error with descriptor 5 still open — no failure path contains a
`close(mfd)`. -/
theorem ps_c7_no_close_cex :
    (ps_alloc 5 AllocStep.grantptFail).1 = none ∧
    (ps_alloc 5 AllocStep.grantptFail).2 = [5] ∧
    ([5] : List Nat) ≠ [] := by decide

/-- C7 amended: on every failing allocation step the allocator returns an
error and the session is aborted with no side effects other than the
partially opened master descriptor; that descriptor is NOT closed before
the allocation call returns — it stays open (to be released only when
the session child process exits). -/
theorem ps_c7_alloc_failure (m : Nat) (step : AllocStep)
    (h : step ≠ AllocStep.allocOk) :
    (ps_alloc m step).1 = none ∧
    ((ps_alloc m step).2 = [] ∨ (ps_alloc m step).2 = [m]) := by
  cases step with
  | openptFail => exact ⟨rfl, Or.inl rfl⟩
  | grantptFail => exact ⟨rfl, Or.inr rfl⟩
  | unlockptFail => exact ⟨rfl, Or.inr rfl⟩
  | allocOk => exact absurd rfl h

theorem ps_c7_alloc_failure_witness :
    (ps_alloc 5 AllocStep.unlockptFail).1 = none ∧
    ((ps_alloc 5 AllocStep.unlockptFail).2 = [] ∨
      (ps_alloc 5 AllocStep.unlockptFail).2 = [5]) :=
  ps_c7_alloc_failure 5 AllocStep.unlockptFail (by decide)

/-! ### The shared relay state written by `ps_relay`

    ps_relay_fds[0] = peerfd;
    ps_relay_fds[1] = mfd;
    pthread_create(&ps_relay_threads[0], NULL, ps_relay_one, 0);
    pthread_create(&ps_relay_threads[1], NULL, ps_relay_one, (void *)1);

In program order, `pthread_create` stores the new handle into
`ps_relay_threads[i]` and the new worker may begin executing at that
point; nothing later in `ps_relay` touches the state again. -/

/-- Program-order events of `ps_relay` on the process-global shared
state. -/
inductive REv : Type
  | writeFd : Nat → Nat → REv
  | writeHandle : Nat → REv
  | startWorker : Nat → REv
deriving DecidableEq

/-- A store to the shared relay state (descriptor slot or handle slot). -/
def REv.isWrite : REv → Bool
  | .startWorker _ => false
  | _ => true

/-- A store to one of the two descriptor slots. -/
def REv.isFdWrite : REv → Bool
  | .writeFd _ _ => true
  | _ => false

/-- The moment a worker may begin executing. -/
def REv.isStart : REv → Bool
  | .startWorker _ => true
  | _ => false

/-- The event trace of `ps_relay(peerfd, mfd)` in program order. -/
def ps_relay_trace (peerfd mfd : Nat) : List REv :=
  [.writeFd 0 peerfd, .writeFd 1 mfd,
   .writeHandle 0, .startWorker 0,
   .writeHandle 1, .startWorker 1]

/-- "The shared state is written entirely before either worker starts":
after dropping the leading writes, no write remains. -/
def writesPrecedeStarts (l : List REv) : Bool :=
  (l.dropWhile REv.isWrite).all fun e => ! REv.isWrite e

/-- C8: refuted on the relay's own event trace.  The claim says the two
descriptors and the two worker handles are all written before either
worker starts executing.  In `ps_relay(4, 3)` (the descriptors of an
actual session) the store to `ps_relay_threads[1]` is issued by the
second `pthread_create`, after the first worker has already been started
— so a write to the shared state happens after a worker is running, and
the first worker can read the opposing handle before it is written. -/
theorem ps_c8_handle_race_cex :
    writesPrecedeStarts (ps_relay_trace 4 3) = false := by decide

/-- C8 amended: the two descriptor slots are each written exactly once,
and all descriptor writes happen before either worker starts; exactly two
workers are started; nothing writes the shared state after the second
worker starts (the trace ends there); but the second worker's handle
slot is written only after the first worker has started, so the full
shared state is not in place before the workers run. -/
theorem ps_c8_write_order (peerfd mfd : Nat) :
    ((ps_relay_trace peerfd mfd).countP REv.isFdWrite = 2) ∧
    (((ps_relay_trace peerfd mfd).dropWhile fun e => ! REv.isStart e).all
      fun e => ! REv.isFdWrite e) = true ∧
    ((ps_relay_trace peerfd mfd).countP REv.isStart = 2) ∧
    (ps_relay_trace peerfd mfd).getLast? = some (REv.startWorker 1) ∧
    writesPrecedeStarts (ps_relay_trace peerfd mfd) = false := by
  refine ⟨?_, rfl, ?_, rfl, rfl⟩
  · simp [ps_relay_trace, List.countP_cons, REv.isFdWrite]
  · simp [ps_relay_trace, List.countP_cons, REv.isStart]

end Ptysd
